import Mathlib

/-!
# Verification of the PyCTAKES clinical NLP core

Shallow embedding of the PyCTAKES analysis engine: the span/annotation data
model (`src/pyctakes/types.py`), the pipeline orchestrator
(`src/pyctakes/pipeline.py`), the greedy entity-overlap resolver
(`src/pyctakes/annotators/ner.py`), the clinical section detector
(`src/pytakes/annotators/sections.py`), the pyConText-style
assertion/negation engine (`src/pytakes/annotators/assertion.py`) and the
UMLS concept matcher's semantic-type compatibility check
(`src/pyctakes/annotators/umls.py`).

Strings are modelled as `List Char`, floats as `ℚ`, Python's stable
`list.sort(key=...)` as a stable insertion sort by a key into a linear order.
-/

namespace PyCTakes

/-- `Span` from `types.py`: character interval with `start`/`end` fields. -/
structure Span where
  start : Nat
  stop : Nat
deriving DecidableEq, Repr

/-- `Span.overlaps` from `types.py`:
`self.start < other.end and self.end > other.start`. -/
def Span.overlaps (s other : Span) : Bool :=
  s.start < other.stop && s.stop > other.start

/-- `AssertionType` enum from `types.py`. -/
inductive AssertionType where
  | present
  | absent
  | possible
  | conditional
  | hypothetical
  | familyHistory
  | historical
deriving DecidableEq, Repr

/-- `EntityType` enum from `types.py`. -/
inductive EntityType where
  | disorder
  | medication
  | procedure
  | anatomy
  | signSymptom
  | labValue
  | person
  | organization
deriving DecidableEq, Repr

/-- `NamedEntityAnnotation` from `types.py`, restricted to the fields the
algorithms under verification read (`span`, `text`, `entity_type`,
`confidence`); `annotation_type` is fixed to `NAMED_ENTITY` by
`__post_init__` and hence implicit in the type. -/
structure NamedEntity where
  span : Span
  text : List Char
  entityType : EntityType
  confidence : ℚ
deriving DecidableEq, Repr

/-- Convenience projection mirroring the `Annotation.start` property. -/
def NamedEntity.start (e : NamedEntity) : Nat := e.span.start

/-!
## Stable sorting

Python's `list.sort(key=...)` is a stable sort by a key function into a
totally ordered type.  We model it as a stable insertion sort: an element is
inserted after every element of strictly smaller key and before the first
element whose key is not smaller, so elements with equal keys keep their
original relative order.
-/

/-- Insert `x` into `l`, passing over elements whose key is strictly smaller
than `x`'s key. -/
def insertKey [LinearOrder κ] (key : α → κ) (x : α) : List α → List α
  | [] => [x]
  | y :: ys => if key y < key x then y :: insertKey key x ys else x :: y :: ys

/-- Stable insertion sort by `key`, modelling Python's `list.sort(key=...)`. -/
def sortKey [LinearOrder κ] (key : α → κ) : List α → List α
  | [] => []
  | x :: xs => insertKey key x (sortKey key xs)

/-!
## Entity overlap resolver

`ClinicalNERAnnotator._resolve_overlaps` from `annotators/ner.py`:

    entities.sort(key=lambda x: (x.start, -x.confidence))
    non_overlapping = []
    for entity in entities:
        overlaps = any(entity.span.overlaps(selected.span)
                       for selected in non_overlapping)
        if not overlaps:
            non_overlapping.append(entity)
    return non_overlapping
-/

/-- The sort key `(x.start, -x.confidence)` of `_resolve_overlaps`,
compared lexicographically as Python compares tuples. -/
def resolveKey (e : NamedEntity) : Lex (Nat × ℚ) :=
  toLex (e.span.start, -e.confidence)

/-- One step of the greedy scan of `_resolve_overlaps`: append the entity
unless its span overlaps an already accepted one. -/
def resolveStep (acc : List NamedEntity) (e : NamedEntity) : List NamedEntity :=
  if acc.any (fun selected => e.span.overlaps selected.span) then acc
  else acc ++ [e]

/-- `ClinicalNERAnnotator._resolve_overlaps`: sort by
`(start, -confidence)`, then greedily keep entities that do not overlap any
already kept entity. -/
def resolveOverlaps (entities : List NamedEntity) : List NamedEntity :=
  (sortKey resolveKey entities).foldl resolveStep []

/-!
### Generic facts about the stable sort
-/

theorem insertKey_perm [LinearOrder κ] (key : α → κ) (x : α) (l : List α) :
    List.Perm (insertKey key x l) (x :: l) := by
  induction l with
  | nil => exact List.Perm.refl _
  | cons y ys ih =>
    by_cases h : key y < key x
    · simp only [insertKey, if_pos h]
      exact (ih.cons y).trans (List.Perm.swap x y ys)
    · simp only [insertKey, if_neg h]
      exact List.Perm.refl _

theorem sortKey_perm [LinearOrder κ] (key : α → κ) (l : List α) :
    List.Perm (sortKey key l) l := by
  induction l with
  | nil => exact List.Perm.refl _
  | cons x xs ih =>
    exact (insertKey_perm key x (sortKey key xs)).trans (ih.cons x)

theorem insertKey_pairwise_le [LinearOrder κ] (key : α → κ) (x : α) {l : List α}
    (h : l.Pairwise (fun a b => key a ≤ key b)) :
    (insertKey key x l).Pairwise (fun a b => key a ≤ key b) := by
  induction l with
  | nil => simp [insertKey]
  | cons y ys ih =>
    rcases List.pairwise_cons.1 h with ⟨hy, hys⟩
    by_cases hlt : key y < key x
    · simp only [insertKey, if_pos hlt]
      refine List.pairwise_cons.2 ⟨?_, ih hys⟩
      intro z hz
      rcases List.mem_cons.1 ((insertKey_perm key x ys).mem_iff.1 hz) with hz | hz
      · subst hz; exact le_of_lt hlt
      · exact hy z hz
    · simp only [insertKey, if_neg hlt]
      refine List.pairwise_cons.2 ⟨?_, h⟩
      intro z hz
      rcases List.mem_cons.1 hz with hz | hz
      · subst hz; exact le_of_not_lt hlt
      · exact le_trans (le_of_not_lt hlt) (hy z hz)

theorem sortKey_pairwise_le [LinearOrder κ] (key : α → κ) (l : List α) :
    (sortKey key l).Pairwise (fun a b => key a ≤ key b) := by
  induction l with
  | nil => simp [sortKey]
  | cons x xs ih => exact insertKey_pairwise_le key x ih

/-- Two lists with pairwise-distinct sort keys that are permutations of each
other have the same stable sort. -/
theorem sortKey_eq_of_perm [LinearOrder κ] (key : α → κ) {l₁ l₂ : List α}
    (hperm : List.Perm l₁ l₂) (hkeys : l₁.Pairwise (fun a b => key a ≠ key b)) :
    sortKey key l₁ = sortKey key l₂ := by
  have hsymm : ∀ {a b : α}, key a ≠ key b → key b ≠ key a := fun h => Ne.symm h
  have hkeys₂ : l₂.Pairwise (fun a b => key a ≠ key b) :=
    (hperm.pairwise_iff hsymm).1 hkeys
  have hk₁ : (sortKey key l₁).Pairwise (fun a b => key a ≠ key b) :=
    ((sortKey_perm key l₁).pairwise_iff hsymm).2 hkeys
  have hk₂ : (sortKey key l₂).Pairwise (fun a b => key a ≠ key b) :=
    ((sortKey_perm key l₂).pairwise_iff hsymm).2 hkeys₂
  have hs₁ : (sortKey key l₁).Pairwise (fun a b => key a < key b) :=
    ((sortKey_pairwise_le key l₁).and hk₁).imp fun h => lt_of_le_of_ne h.1 h.2
  have hs₂ : (sortKey key l₂).Pairwise (fun a b => key a < key b) :=
    ((sortKey_pairwise_le key l₂).and hk₂).imp fun h => lt_of_le_of_ne h.1 h.2
  haveI : IsAntisymm α fun a b => key a < key b :=
    ⟨fun _ _ h h' => absurd h (lt_asymm h')⟩
  exact List.eq_of_perm_of_sorted
    ((sortKey_perm key l₁).trans (hperm.trans (sortKey_perm key l₂).symm)) hs₁ hs₂

/-!
### Overlap resolver properties
-/

/-- `Span.overlaps` is symmetric (strict interval intersection). -/
theorem Span.overlaps_comm (s t : Span) : s.overlaps t = t.overlaps s := by
  simp only [Span.overlaps, gt_iff_lt]
  exact Bool.and_comm _ _

/-- The mutual non-overlap relation maintained by the greedy scan. -/
def NonConflicting (a b : NamedEntity) : Prop :=
  a.span.overlaps b.span = false ∧ b.span.overlaps a.span = false

theorem resolveStep_pairwise {acc : List NamedEntity} (e : NamedEntity)
    (h : acc.Pairwise NonConflicting) :
    (resolveStep acc e).Pairwise NonConflicting := by
  unfold resolveStep
  by_cases hov : acc.any (fun selected => e.span.overlaps selected.span)
  · simpa [hov] using h
  · simp only [hov, if_false, Bool.false_eq_true]
    have hnone : ∀ s ∈ acc, e.span.overlaps s.span = false := by
      intro s hs
      have := (List.any_eq_true.not.1 (by simpa using hov))
      push_neg at this
      simpa using this s hs
    refine List.pairwise_append.2 ⟨h, List.pairwise_singleton _ _, ?_⟩
    intro a ha b hb
    have hb' : b = e := List.mem_singleton.1 hb
    rw [hb']
    exact ⟨(Span.overlaps_comm a.span e.span).trans (hnone a ha), hnone a ha⟩

theorem foldl_resolveStep_pairwise (l : List NamedEntity)
    (acc : List NamedEntity) (h : acc.Pairwise NonConflicting) :
    (l.foldl resolveStep acc).Pairwise NonConflicting := by
  induction l generalizing acc with
  | nil => exact h
  | cons e es ih => exact ih _ (resolveStep_pairwise e h)

/-- The lower-confidence, earlier-starting candidate of the spec's concrete
resolver scenario: span `[0,8)`, confidence 0.7. -/
def candLow : NamedEntity :=
  ⟨⟨0, 8⟩, "headache".toList, .disorder, mkRat 7 10⟩

/-- The higher-confidence, later-starting candidate of the spec's concrete
resolver scenario: span `[2,10)`, confidence 0.9. -/
def candHigh : NamedEntity :=
  ⟨⟨2, 10⟩, "adachexyz".toList, .disorder, mkRat 9 10⟩

/-- C1 counterexample: on the two-candidate list with spans `[0,8)`
(confidence 0.7) and `[2,10)` (confidence 0.9), the resolver's output is not
the single higher-confidence candidate `[2,10)` — in either input order. -/
theorem resolve_scenario_keeps_low_not_high :
    resolveOverlaps [candLow, candHigh] ≠ [candHigh] ∧
    resolveOverlaps [candHigh, candLow] ≠ [candHigh] := by
  decide

/-- C1 (amended): the resolver sorts by `(start, -confidence)`, so the
earlier-starting span `[0,8)` with confidence 0.7 is accepted first and the
overlapping higher-confidence `[2,10)` is discarded: the output is exactly
the `[0,8)` candidate, in either input order. -/
theorem resolve_scenario_keeps_low :
    resolveOverlaps [candLow, candHigh] = [candLow] ∧
    resolveOverlaps [candHigh, candLow] = [candLow] := by
  decide

/-- C6: for every candidate list, no two annotations in the resolver's
output overlap under the strict-overlap rule
(`start < other.end and end > other.start`), in either direction. -/
theorem resolveOverlaps_pairwise_nonoverlapping (entities : List NamedEntity) :
    (resolveOverlaps entities).Pairwise NonConflicting :=
  foldl_resolveStep_pairwise _ [] List.Pairwise.nil

/-- Two candidates sharing the sort key `(start, -confidence)` but differing
in span end; their relative order decides which one the greedy scan keeps. -/
def tieA : NamedEntity := ⟨⟨0, 5⟩, "fever".toList, .signSymptom, mkRat 9 10⟩

/-- Second equal-key candidate; see `tieA`. -/
def tieB : NamedEntity := ⟨⟨0, 9⟩, "high fever".toList, .signSymptom, mkRat 9 10⟩

/-- C5 counterexample: the resolver's output is not invariant under every
permutation of the candidate list: two equal-key candidates (same start,
same confidence) are kept or dropped depending on their input order. -/
theorem resolve_not_permutation_invariant :
    List.Perm [tieA, tieB] [tieB, tieA] ∧
    resolveOverlaps [tieA, tieB] ≠ resolveOverlaps [tieB, tieA] :=
  ⟨List.Perm.swap tieB tieA [], by decide⟩

/-- C5 (amended): for candidate lists in which no two candidates share the
sort key `(start, -confidence)`, the resolver's output is identical for
every permutation of the input list. -/
theorem resolveOverlaps_perm_invariant (l₁ l₂ : List NamedEntity)
    (hperm : List.Perm l₁ l₂)
    (hkeys : l₁.Pairwise (fun a b => resolveKey a ≠ resolveKey b)) :
    resolveOverlaps l₁ = resolveOverlaps l₂ := by
  unfold resolveOverlaps
  rw [sortKey_eq_of_perm resolveKey hperm hkeys]

/-- Witness for the amended C5 at a concrete pair of permuted lists with
distinct sort keys. -/
theorem resolveOverlaps_perm_invariant_witness :
    (List.Perm [candLow, candHigh] [candHigh, candLow] ∧
      List.Pairwise (fun a b => resolveKey a ≠ resolveKey b)
        [candLow, candHigh]) ∧
    resolveOverlaps [candLow, candHigh] = resolveOverlaps [candHigh, candLow] :=
  ⟨⟨List.Perm.swap candHigh candLow [], by decide⟩,
    resolveOverlaps_perm_invariant _ _ (List.Perm.swap candHigh candLow [])
      (by decide)⟩

/-!
## Pipeline orchestrator

`Pipeline.process_document` from `pipeline.py`:

    for annotator in self.annotators:
        try:
            annotations = annotator.process(document)
            document.annotations.extend(annotations)
        except Exception as e:
            error_msg = f"Error in {annotator.name}: {str(e)}"
            errors.append(error_msg)
            if self.config.get("fail_on_error", False):
                raise RuntimeError(error_msg) from e
-/

/-- A `Document` as the orchestrator sees it: source text plus the ordered,
append-only annotation list.  Annotations are abstract (`α`); the
orchestrator never inspects them. -/
structure PDocument (α : Type) where
  text : String
  annotations : List α
deriving DecidableEq

/-- A pipeline stage: the `Annotator.name` attribute plus the
`annotator.process(document)` call the orchestrator makes; a stage that
raises is modelled by `Except.error` carrying `str(e)`. -/
structure Stage (α : Type) where
  name : String
  annotate : PDocument α → Except String (List α)

/-- Outcome of `Pipeline.process_document`: the final document, the
accumulated error list, and — when `fail_on_error` aborted the run — the
message of the re-raised `RuntimeError` (`none` when no exception
propagated). -/
structure PipeResult (α : Type) where
  document : PDocument α
  errors : List String
  raised : Option String
deriving DecidableEq

/-- `Pipeline.process_document`: run the stages in order; a failing stage
contributes `"Error in <name>: <message>"` to the error list and, with
`fail_on_error` set, aborts the run by re-raising. -/
def processDocument (failOnError : Bool) :
    List (Stage α) → PDocument α → PipeResult α
  | [], document => ⟨document, [], none⟩
  | s :: rest, document =>
    match s.annotate document with
    | Except.ok anns =>
        processDocument failOnError rest
          ⟨document.text, document.annotations ++ anns⟩
    | Except.error e =>
        let msg := "Error in " ++ s.name ++ ": " ++ e
        if failOnError then ⟨document, [msg], some msg⟩
        else
          let r := processDocument failOnError rest document
          ⟨r.document, msg :: r.errors, r.raised⟩

/-- A stage whose `annotate` raises with message `"boom"`. -/
def failStage : Stage Nat := ⟨"ner", fun _ => Except.error "boom"⟩

/-- A stage whose `annotate` returns one annotation. -/
def okStage : Stage Nat := ⟨"tok", fun _ => Except.ok [7]⟩

/-- A document that already carries one annotation from an earlier stage. -/
def pipeDoc : PDocument Nat := ⟨"note text", [3]⟩

/-- C2 counterexample: the string recorded for a failing stage is
`"Error in <stage-name>: <message>"`, not the claimed
`"<stage-name>: <message>"`. -/
theorem pipeline_error_message_format :
    (processDocument false [failStage] pipeDoc).errors = ["Error in ner: boom"] ∧
    (processDocument false [failStage] pipeDoc).errors ≠ ["ner: boom"] := by
  constructor
  · rfl
  · decide

/-- C2 (amended): a failing stage appends `"Error in <stage-name>:
<message>"` to the error list; without `fail_on_error` the remaining stages
still run on the unchanged document, while with `fail_on_error` the run
aborts at once (no further stage runs) re-raising that message; annotations
already appended by earlier stages remain in the document in both cases. -/
theorem pipeline_stage_failure (s : Stage α) (rest : List (Stage α))
    (doc : PDocument α) (e : String) (h : s.annotate doc = Except.error e) :
    (processDocument false (s :: rest) doc =
      let r := processDocument false rest doc
      ⟨r.document, ("Error in " ++ s.name ++ ": " ++ e) :: r.errors,
        r.raised⟩) ∧
    (processDocument true (s :: rest) doc =
      ⟨doc, ["Error in " ++ s.name ++ ": " ++ e],
        some ("Error in " ++ s.name ++ ": " ++ e)⟩) := by
  constructor <;> simp [processDocument, h]

/-- Witness for the amended C2 at a concrete failing stage followed by a
succeeding stage. -/
theorem pipeline_stage_failure_witness :
    failStage.annotate pipeDoc = Except.error "boom" ∧
    ((processDocument false (failStage :: [okStage]) pipeDoc =
       let r := processDocument false [okStage] pipeDoc
       ⟨r.document, ("Error in " ++ failStage.name ++ ": " ++ "boom") ::
         r.errors, r.raised⟩) ∧
     (processDocument true (failStage :: [okStage]) pipeDoc =
       ⟨pipeDoc, ["Error in " ++ failStage.name ++ ": " ++ "boom"],
         some ("Error in " ++ failStage.name ++ ": " ++ "boom")⟩)) :=
  ⟨rfl, pipeline_stage_failure failStage [okStage] pipeDoc "boom" rfl⟩

/-!
## Clinical section detector

`ClinicalSectionDetector` from `annotators/sections.py`.  Python strings are
modelled as `List Char`.
-/

/-- Shorthand turning a string literal into its character list. -/
def chars (s : String) : List Char := s.toList

/-- The whitespace characters stripped by Python's `str.strip()`. -/
def isPySpace (c : Char) : Bool :=
  c == ' ' || c == '\t' || c == '\n' || c == '\r' || c == '\x0b' || c == '\x0c'

/-- Python `str.strip()`: drop leading and trailing whitespace. -/
def pyStrip (cs : List Char) : List Char :=
  ((cs.dropWhile isPySpace).reverse.dropWhile isPySpace).reverse

/-- Python `str.rstrip(':')`: drop trailing colons. -/
def rstripColon (cs : List Char) : List Char :=
  (cs.reverse.dropWhile (· == ':')).reverse

/-- The cleaned header literal of `_calculate_confidence`:
`matched_text.lower().strip().rstrip(':').strip()`. -/
def cleanHeader (matchedText : List Char) : List Char :=
  pyStrip (rstripColon (pyStrip (matchedText.map Char.toLower)))

/-- The `exact_matches` table of `_calculate_confidence`, mapping a section
type to its canonical headings. -/
def exactMatches : List (List Char × List (List Char)) :=
  [(chars "chief_complaint", [chars "chief complaint", chars "cc"]),
   (chars "history_present_illness",
     [chars "history of present illness", chars "hpi"]),
   (chars "past_medical_history",
     [chars "past medical history", chars "pmh", chars "medical history"]),
   (chars "medications", [chars "medications", chars "meds"]),
   (chars "allergies", [chars "allergies", chars "allergy"]),
   (chars "social_history", [chars "social history", chars "sh"]),
   (chars "family_history", [chars "family history", chars "fh"]),
   (chars "review_of_systems", [chars "review of systems", chars "ros"]),
   (chars "physical_exam",
     [chars "physical exam", chars "physical examination", chars "pe"]),
   (chars "vital_signs", [chars "vital signs", chars "vitals", chars "vs"]),
   (chars "laboratory", [chars "laboratory", chars "labs", chars "lab results"]),
   (chars "radiology", [chars "radiology", chars "imaging"]),
   (chars "assessment", [chars "assessment", chars "impression"]),
   (chars "plan", [chars "plan"]),
   (chars "assessment_and_plan",
     [chars "assessment and plan", chars "a&p"]),
   (chars "procedures", [chars "procedures", chars "procedure"])]

/-- Whether `_calculate_confidence` takes the early-return branch:
the section type is in `exact_matches` and the cleaned literal is one of its
canonical headings. -/
def isExactHeader (matchedText sectionType : List Char) : Bool :=
  match exactMatches.lookup sectionType with
  | some terms => terms.contains (cleanHeader matchedText)
  | none => false

/-- `ClinicalSectionDetector._calculate_confidence`: base 0.85; an exact
canonical match returns `min(0.98, 0.85 + 0.10)` immediately; otherwise
+0.05 when the matched text contains a colon, +0.05 when the cleaned literal
has at most 3 characters, capped by `min(0.95, ·)`. -/
def calcConfidence (matchedText sectionType : List Char) : ℚ :=
  if isExactHeader matchedText sectionType then min 0.98 (0.85 + 0.10)
  else
    let c₁ : ℚ := if ':' ∈ matchedText then 0.85 + 0.05 else 0.85
    let c₂ : ℚ := if (cleanHeader matchedText).length ≤ 3 then c₁ + 0.05 else c₁
    min 0.95 c₂

/-- The confidence formula exactly as the claim states it: base 0.85, plus
0.10 for an exact canonical match, plus 0.05 for a colon, plus 0.05 for a
cleaned literal of at most 3 characters, capped at 0.98 for exact canonical
matches and 0.95 otherwise. -/
def claimedConfidence (matchedText sectionType : List Char) : ℚ :=
  let raw : ℚ := 0.85 +
    (if isExactHeader matchedText sectionType then (0.10 : ℚ) else 0) +
    (if ':' ∈ matchedText then (0.05 : ℚ) else 0) +
    (if (cleanHeader matchedText).length ≤ 3 then (0.05 : ℚ) else 0)
  min (if isExactHeader matchedText sectionType then (0.98 : ℚ) else 0.95) raw

/-- The confidence formula the code actually implements, stated additively:
an exact canonical match scores 0.95 flat (the colon and abbreviation
bonuses are skipped by the early return, and the 0.98 cap is never
reached); otherwise 0.85 plus the colon and abbreviation bonuses, capped
at 0.95. -/
def amendedConfidence (matchedText sectionType : List Char) : ℚ :=
  if isExactHeader matchedText sectionType then 0.95
  else
    min 0.95 (0.85 +
      (if ':' ∈ matchedText then (0.05 : ℚ) else 0) +
      (if (cleanHeader matchedText).length ≤ 3 then (0.05 : ℚ) else 0))

/-- C3 counterexample: for the match `"Medications:"` of section type
`medications` (an exact canonical heading with a trailing colon) the code
scores 0.95, while the claimed formula gives 0.98. -/
theorem confidence_exact_colon_is_95_not_98 :
    calcConfidence (chars "Medications:") (chars "medications") = 0.95 ∧
    claimedConfidence (chars "Medications:") (chars "medications") = 0.98 ∧
    calcConfidence (chars "Medications:") (chars "medications") ≠
      claimedConfidence (chars "Medications:") (chars "medications") := by
  have hex : isExactHeader (chars "Medications:") (chars "medications") = true := by
    decide
  have hcolon : (':' ∈ chars "Medications:") := by decide
  have hlen : ¬((cleanHeader (chars "Medications:")).length ≤ 3) := by decide
  refine ⟨?_, ?_, ?_⟩
  · rw [calcConfidence, hex]
    norm_num
  · rw [claimedConfidence, hex]
    simp only [if_true, if_pos hcolon, if_neg hlen]
    norm_num
  · rw [calcConfidence, claimedConfidence, hex]
    simp only [if_true, if_pos hcolon, if_neg hlen]
    norm_num

/-- C3 (amended): for every section-header match the detector's confidence
is: 0.95 flat for an exact canonical match (the early return skips the
colon and abbreviation bonuses, so the 0.98 cap is never attained);
otherwise base 0.85, plus 0.05 for a colon in the match, plus 0.05 for a
cleaned literal of at most 3 characters, capped at 0.95. -/
theorem calcConfidence_eq_amended (matchedText sectionType : List Char) :
    calcConfidence matchedText sectionType =
      amendedConfidence matchedText sectionType := by
  rw [calcConfidence, amendedConfidence]
  by_cases hex : isExactHeader matchedText sectionType
  · rw [if_pos hex, if_pos hex]
    norm_num
  · rw [if_neg hex, if_neg hex]
    by_cases hcolon : ':' ∈ matchedText <;>
      by_cases hlen : (cleanHeader matchedText).length ≤ 3 <;>
        simp only [if_pos, if_neg, hcolon, hlen, if_true, if_false] <;>
          norm_num

/-!
### Section spans

`ClinicalSectionDetector.annotate` collects header matches as boundary
records, sorts them by `start`, and emits one section annotation per
boundary whose span runs from the boundary's start to the next boundary's
start (end of text for the last).
-/

/-- A header-match boundary record of `annotate`:
`{'start': ..., 'end': ..., 'type': ...}` (the `header_text` and
`confidence` entries do not influence the emitted spans). -/
structure SectionBoundary where
  start : Nat
  stop : Nat
  sectionType : List Char
deriving DecidableEq

/-- The span construction of `annotate` on an already sorted boundary list:
each section spans from its boundary's start to the next boundary's start,
the last one to the end of the text. -/
def sectionSpansAux (textLen : Nat) : List SectionBoundary → List Span
  | [] => []
  | [b] => [⟨b.start, textLen⟩]
  | b :: b' :: rest => ⟨b.start, b'.start⟩ :: sectionSpansAux textLen (b' :: rest)

/-- The spans of the section annotations emitted by
`ClinicalSectionDetector.annotate`: sort the collected boundaries by start
position (Python's stable sort), then span each section up to the next
boundary's start or the end of the text. -/
def sectionSpans (bs : List SectionBoundary) (textLen : Nat) : List Span :=
  sectionSpansAux textLen (sortKey SectionBoundary.start bs)

theorem sectionSpansAux_spec (textLen : Nat) (b : SectionBoundary)
    (l : List SectionBoundary)
    (hsorted : (b :: l).Pairwise (fun x y => x.start ≤ y.start))
    (hle : ∀ x ∈ b :: l, x.start ≤ textLen) :
    (∃ s rest, sectionSpansAux textLen (b :: l) = s :: rest ∧
      s.start = b.start) ∧
    List.Chain' (fun s t => s.stop = t.start) (sectionSpansAux textLen (b :: l)) ∧
    (∃ s, (sectionSpansAux textLen (b :: l)).getLast? = some s ∧
      s.stop = textLen) ∧
    (∀ n, (∃ s ∈ sectionSpansAux textLen (b :: l),
        s.start ≤ n ∧ n < s.stop) ↔ b.start ≤ n ∧ n < textLen) := by
  induction l generalizing b with
  | nil =>
    refine ⟨⟨⟨b.start, textLen⟩, [], rfl, rfl⟩, ?_, ⟨⟨b.start, textLen⟩, rfl, rfl⟩, ?_⟩
    · simp [sectionSpansAux]
    · intro n
      constructor
      · rintro ⟨s, hs, h1, h2⟩
        simp only [sectionSpansAux, List.mem_singleton] at hs
        subst hs
        exact ⟨h1, h2⟩
      · intro ⟨h1, h2⟩
        exact ⟨⟨b.start, textLen⟩, by simp [sectionSpansAux], h1, h2⟩
  | cons b' l' ih =>
    have hsorted' : (b' :: l').Pairwise (fun x y => x.start ≤ y.start) :=
      (List.pairwise_cons.1 hsorted).2
    have hle' : ∀ x ∈ b' :: l', x.start ≤ textLen := fun x hx =>
      hle x (List.mem_cons_of_mem b hx)
    have hbb' : b.start ≤ b'.start :=
      (List.pairwise_cons.1 hsorted).1 b' (List.mem_cons_self b' l')
    obtain ⟨⟨s, rest, heq, hstart⟩, hchain, ⟨slast, hlast, hstop⟩, hunion⟩ :=
      ih b' hsorted' hle'
    have hspans : sectionSpansAux textLen (b :: b' :: l') =
        ⟨b.start, b'.start⟩ :: sectionSpansAux textLen (b' :: l') := rfl
    refine ⟨⟨⟨b.start, b'.start⟩, sectionSpansAux textLen (b' :: l'), hspans, rfl⟩,
      ?_, ?_, ?_⟩
    · rw [hspans, heq]
      exact List.chain'_cons.2 ⟨hstart.symm, heq ▸ hchain⟩
    · refine ⟨slast, ?_, hstop⟩
      rw [hspans, heq, List.getLast?_cons_cons, ← heq]
      exact hlast
    · intro n
      rw [hspans]
      constructor
      · rintro ⟨t, ht, h1, h2⟩
        rcases List.mem_cons.1 ht with rfl | ht
        · exact ⟨h1, lt_of_lt_of_le h2 (hle' b' (List.mem_cons_self b' l'))⟩
        · have := (hunion n).1 ⟨t, ht, h1, h2⟩
          exact ⟨le_trans hbb' this.1, this.2⟩
      · intro ⟨h1, h2⟩
        by_cases hn : n < b'.start
        · exact ⟨⟨b.start, b'.start⟩, List.mem_cons_self _ _, h1, hn⟩
        · obtain ⟨t, ht, ht1, ht2⟩ := (hunion n).2 ⟨le_of_not_lt hn, h2⟩
          exact ⟨t, List.mem_cons_of_mem _ ht, ht1, ht2⟩

/-- C7: for every nonempty boundary list whose start positions lie within
the text, the emitted section spans begin at the earliest header's start,
chain without gaps (each span ends exactly where the next begins), the last
span ends at the end of the text, and their union is exactly the interval
from the earliest header's start to the end of the text. -/
theorem sectionSpans_contiguous (bs : List SectionBoundary) (textLen : Nat)
    (hne : bs ≠ []) (hle : ∀ x ∈ bs, x.start ≤ textLen) :
    ∃ s₀ rest, sectionSpans bs textLen = s₀ :: rest ∧
      s₀.start ∈ bs.map SectionBoundary.start ∧
      (∀ x ∈ bs, s₀.start ≤ x.start) ∧
      List.Chain' (fun s t => s.stop = t.start) (s₀ :: rest) ∧
      (∃ s, (s₀ :: rest).getLast? = some s ∧ s.stop = textLen) ∧
      (∀ n, (∃ s ∈ s₀ :: rest, s.start ≤ n ∧ n < s.stop) ↔
        s₀.start ≤ n ∧ n < textLen) := by
  have hperm := sortKey_perm SectionBoundary.start bs
  have hsorted := sortKey_pairwise_le SectionBoundary.start bs
  obtain ⟨b, l, hbl⟩ : ∃ b l, sortKey SectionBoundary.start bs = b :: l := by
    cases hsort : sortKey SectionBoundary.start bs with
    | nil =>
      exfalso
      exact hne (List.eq_nil_of_length_eq_zero
        (by simpa [hsort] using hperm.length_eq.symm))
    | cons b l => exact ⟨b, l, rfl⟩
  have hmem : ∀ x ∈ b :: l, x ∈ bs := fun x hx =>
    hperm.mem_iff.1 (hbl ▸ hx)
  have hle' : ∀ x ∈ b :: l, x.start ≤ textLen := fun x hx => hle x (hmem x hx)
  have hsorted' : (b :: l).Pairwise (fun x y => x.start ≤ y.start) := by
    rw [← hbl]; exact hsorted
  obtain ⟨⟨s, rest, heq, hstart⟩, hchain, hlast, hunion⟩ :=
    sectionSpansAux_spec textLen b l hsorted' hle'
  have hspans : sectionSpans bs textLen = s :: rest := by
    rw [sectionSpans, hbl, heq]
  refine ⟨s, rest, hspans, ?_, ?_, heq ▸ hchain, heq ▸ hlast, ?_⟩
  · rw [hstart]
    exact List.mem_map_of_mem SectionBoundary.start
      (hmem b (List.mem_cons_self b l))
  · intro x hx
    rw [hstart]
    have hx' := hperm.symm.mem_iff.1 hx
    rw [hbl] at hx'
    rcases List.mem_cons.1 hx' with rfl | hx'
    · exact le_refl _
    · exact (List.pairwise_cons.1 hsorted').1 x hx'
  · intro n
    rw [← heq]
    rw [hstart]
    exact hunion n

/-- Witness for C7 at a concrete pair of out-of-order boundaries in a
20-character text. -/
theorem sectionSpans_contiguous_witness :
    (([⟨10, 15, chars "plan"⟩, ⟨2, 5, chars "cc"⟩] :
        List SectionBoundary) ≠ [] ∧
      ∀ x ∈ ([⟨10, 15, chars "plan"⟩, ⟨2, 5, chars "cc"⟩] :
        List SectionBoundary), x.start ≤ 20) ∧
    (∃ s₀ rest,
      sectionSpans [⟨10, 15, chars "plan"⟩, ⟨2, 5, chars "cc"⟩] 20 =
        s₀ :: rest ∧
      s₀.start ∈ ([⟨10, 15, chars "plan"⟩, ⟨2, 5, chars "cc"⟩] :
        List SectionBoundary).map SectionBoundary.start ∧
      (∀ x ∈ ([⟨10, 15, chars "plan"⟩, ⟨2, 5, chars "cc"⟩] :
        List SectionBoundary), s₀.start ≤ x.start) ∧
      List.Chain' (fun s t => s.stop = t.start) (s₀ :: rest) ∧
      (∃ s, (s₀ :: rest).getLast? = some s ∧ s.stop = 20) ∧
      (∀ n, (∃ s ∈ s₀ :: rest, s.start ≤ n ∧ n < s.stop) ↔
        s₀.start ≤ n ∧ n < 20)) :=
  ⟨⟨by decide, by decide⟩,
    sectionSpans_contiguous _ 20 (by decide) (by decide)⟩

/-!
## UMLS concept matcher: semantic-type compatibility

`UMLSConceptMapper._is_compatible_type` from `annotators/umls.py`.
-/

/-- The `UMLSConcept` dataclass from `annotators/umls.py`. -/
structure UMLSConcept where
  cui : List Char
  preferredName : List Char
  semanticTypes : List (List Char)
  vocabulary : List Char
  synonyms : List (List Char)
deriving DecidableEq

/-- The `type_mappings` table of `_is_compatible_type`: UMLS semantic-type
codes considered compatible with each clinical entity type
(`dict.get(entity_type, [])` yields `[]` for the unmapped types). -/
def typeMappings (entityType : EntityType) : List (List Char) :=
  match entityType with
  | .disorder =>
      [chars "T047", chars "T048", chars "T049", chars "T050", chars "T184"]
  | .medication => [chars "T109", chars "T121", chars "T125", chars "T116"]
  | .procedure => [chars "T060", chars "T061"]
  | .anatomy =>
      [chars "T023", chars "T024", chars "T025", chars "T026",
       chars "T029", chars "T030"]
  | .signSymptom => [chars "T184", chars "T033"]
  | .labValue => [chars "T033", chars "T034", chars "T059"]
  | _ => []

/-- `UMLSConceptMapper._is_compatible_type`: scan the concept's semantic
types for one listed as compatible, returning `True` on a hit — and
`True` at the end of the scan as well (the source's documented
default-permissive fallback). -/
def isCompatibleType (entityType : EntityType) (concept : UMLSConcept) : Bool :=
  if concept.semanticTypes.any
      (fun semType => (typeMappings entityType).contains semType) then true
  else true

/-- C9: the semantic-type compatibility check returns true for every entity
type and every concept, so a semantic-type mismatch never excludes a
candidate concept. -/
theorem isCompatibleType_always_true (entityType : EntityType)
    (concept : UMLSConcept) : isCompatibleType entityType concept = true := by
  rw [isCompatibleType]
  split <;> rfl

/-!
## Assertion / negation engine

`NegationAssertionAnnotator` from `annotators/assertion.py`: a
pyConText-style cue-scoping classifier.
-/

/-- The `ContextDirection` enum from `annotators/assertion.py`. -/
inductive ContextDirection where
  | forward
  | backward
  | bidirectional
deriving DecidableEq, Repr

/-- The `ContextCue` class: a literal phrase (lowercased at construction),
a category string, a direction and a maximum word distance. -/
structure ContextCue where
  literal : List Char
  category : List Char
  direction : ContextDirection
  maxDistance : Nat
deriving DecidableEq, Repr

/-- `ContextCue.__init__`: the literal is lowercased on construction. -/
def mkCue (literal category : String) (direction : ContextDirection)
    (maxDistance : Nat) : ContextCue :=
  ⟨literal.toList.map Char.toLower, category.toList, direction, maxDistance⟩

/-- A word character of the regex `\w` (ASCII): letters, digits, underscore. -/
def isWordChar (c : Char) : Bool :=
  c.isAlphanum || c == '_'

/-- Scan of `re.finditer(r'\b\w+\b', text)`: walk the characters at
index `i`, accumulating the current word run (reversed) with its start
offset, and emit each maximal run of word characters with its character
span. -/
def tokenizeAux : List Char → Nat → Option (List Char × Nat) →
    List (List Char × Nat × Nat)
  | [], _, none => []
  | [], i, some (acc, s) => [(acc.reverse, s, i)]
  | c :: cs, i, none =>
    if isWordChar c then tokenizeAux cs (i + 1) (some ([c], i))
    else tokenizeAux cs (i + 1) none
  | c :: cs, i, some (acc, s) =>
    if isWordChar c then tokenizeAux cs (i + 1) (some (c :: acc, s))
    else (acc.reverse, s, i) :: tokenizeAux cs (i + 1) none

/-- `NegationAssertionAnnotator._tokenize_with_positions`: lowercase the
text, then list every `\w+` word with its `(start, end)` character span. -/
def tokenizeWithPositions (text : List Char) : List (List Char × Nat × Nat) :=
  tokenizeAux (text.map Char.toLower) 0 none

/-- Python `str.split()` with no argument, walking the characters with the
current word run (reversed) as accumulator. -/
def splitWordsAux : List Char → List Char → List (List Char)
  | [], [] => []
  | [], acc => [acc.reverse]
  | c :: cs, acc =>
    if isPySpace c then
      match acc with
      | [] => splitWordsAux cs []
      | _ => acc.reverse :: splitWordsAux cs []
    else splitWordsAux cs (c :: acc)

/-- Python `str.split()` with no argument: split on whitespace runs,
dropping empty pieces (used on `cue.literal`). -/
def splitWords (cs : List Char) : List (List Char) :=
  splitWordsAux cs []

example :
    tokenizeWithPositions (chars "Patient denies chest pain.") =
      [(chars "patient", 0, 7), (chars "denies", 8, 14),
       (chars "chest", 15, 20), (chars "pain", 21, 25)] := by decide

example : splitWords (chars "no evidence of") =
    [chars "no", chars "evidence", chars "of"] := by decide

/-- A located cue occurrence, as recorded by `_find_context_cues`. -/
structure CueMatch where
  cue : ContextCue
  startWord : Nat
  endWord : Nat
  startChar : Nat
  endChar : Nat
deriving DecidableEq, Repr

/-- `NegationAssertionAnnotator._find_context_cues`: for each word position
`i` and each cue whose word sequence matches the words starting at `i`
(single-word cues match whenever the word equals the literal; multi-word
cues additionally require the following words to match), record the cue with
its word-index span and character span.  The `cue_lookup` dictionary keyed
by first word is an indexing detail: the recorded matches and their order
are exactly those of scanning, at each position, the cue list in
construction order and keeping the cues whose word sequence matches
there. -/
def findContextCues (cues : List ContextCue)
    (words : List (List Char × Nat × Nat)) : List CueMatch :=
  (List.range words.length).flatMap (fun i =>
    cues.filterMap (fun cue =>
      let cueWords := splitWords cue.literal
      if cueWords ≠ [] ∧
          ((words.drop i).take cueWords.length).map (fun w => w.1) = cueWords
      then some ⟨cue, i, i + cueWords.length - 1,
        ((words.get? i).map (fun w => w.2.1)).getD 0,
        ((words.get? (i + cueWords.length - 1)).map (fun w => w.2.2)).getD 0⟩
      else none))

/-- `NegationAssertionAnnotator._find_entity_word_indices`: the indices of
the words whose character span touches the entity span per the source's
three-way condition. -/
def findEntityWordIndices (entity : NamedEntity)
    (words : List (List Char × Nat × Nat)) : List Nat :=
  words.enum.filterMap (fun p =>
    match p with
    | (i, _, s, e) =>
      if (s ≥ entity.span.start && s < entity.span.stop) ||
         (e > entity.span.start && e ≤ entity.span.stop) ||
         (s ≤ entity.span.start && e ≥ entity.span.stop)
      then some i else none)

/-- The per-cue applicability test of `_determine_assertion`: direction
constraint plus word distance within the cue's maximum scope; returns the
cue with its distance when it applies. -/
def cueApplicability (entityStart entityEnd : Nat) (m : CueMatch) :
    Option (ContextCue × Nat) :=
  match m.cue.direction with
  | .forward =>
    if m.endWord < entityStart then
      let distance := entityStart - m.endWord
      if distance ≤ m.cue.maxDistance then some (m.cue, distance) else none
    else none
  | .backward =>
    if m.startWord > entityEnd then
      let distance := m.startWord - entityEnd
      if distance ≤ m.cue.maxDistance then some (m.cue, distance) else none
    else none
  | .bidirectional =>
    let distance :=
      if m.endWord < entityStart then entityStart - m.endWord
      else if m.startWord > entityEnd then m.startWord - entityEnd
      else 0
    if distance ≤ m.cue.maxDistance then some (m.cue, distance) else none

/-- The category-to-assertion mapping of the precedence loop in
`_determine_assertion`; categories outside the five known ones are skipped
(`none`). -/
def categoryAssertion (category : List Char) : Option AssertionType :=
  if category = chars "negation" then some .absent
  else if category = chars "uncertainty" then some .possible
  else if category = chars "family_history" then some .familyHistory
  else if category = chars "historical" then some .historical
  else if category = chars "hypothetical" then some .hypothetical
  else none

/-- The precedence loop of `_determine_assertion`: take the first applicable
cue (already sorted by distance) whose category maps to an assertion type;
default `PRESENT`. -/
def scanApplicableCues : List (ContextCue × Nat) → AssertionType
  | [] => .present
  | (cue, _) :: rest =>
    match categoryAssertion cue.category with
    | some a => a
    | none => scanApplicableCues rest

/-- `NegationAssertionAnnotator._determine_assertion`: `PRESENT` when the
entity overlaps no word; otherwise collect the applicable cues with their
distances, stable-sort by distance (Python's `sort(key=lambda x: x[1])`)
and apply the first mapped category. -/
def determineAssertion (entityWordIndices : List Nat)
    (cueMatches : List CueMatch) : AssertionType :=
  match entityWordIndices with
  | [] => .present
  | i :: rest =>
    let entityStart := rest.foldl Nat.min i
    let entityEnd := rest.foldl Nat.max i
    let applicable := cueMatches.filterMap (cueApplicability entityStart entityEnd)
    scanApplicableCues (sortKey (fun p => p.2) applicable)

/-- `NegationAssertionAnnotator.annotate` restricted to named entities: each
entity is re-emitted with the same span, text and entity type, its
confidence multiplied by 0.95, and the assertion computed from the
document-wide cue matches recorded in the metadata (modelled as the second
component of the pair). -/
def assertAnnotate (text : List Char) (cues : List ContextCue)
    (entities : List NamedEntity) : List (NamedEntity × AssertionType) :=
  let words := tokenizeWithPositions text
  let cueMatches := findContextCues cues words
  entities.map (fun entity =>
    ({ entity with confidence := entity.confidence * 0.95 },
      determineAssertion (findEntityWordIndices entity words) cueMatches))

/-- The `negation_literals` of `_load_default_cues` (FORWARD, scope 6). -/
def negationLiterals : List String :=
  ["no", "not", "denies", "denied", "negative", "negative for",
   "without", "absent", "free of", "ruled out", "rules out",
   "no evidence of", "no signs of", "no symptoms of",
   "unremarkable", "within normal limits", "wnl",
   "non-contributory", "non-significant", "insignificant",
   "never", "none", "neither", "nor", "nothing",
   "refuses", "declines", "declined", "unable to", "cannot",
   "fails to", "failed to", "no complaints of", "no history of",
   "no known", "nk", "nka", "nkda"]

/-- The `backward_negation` literals of `_load_default_cues`
(BACKWARD, scope 3). -/
def backwardNegationLiterals : List String :=
  ["is ruled out", "was ruled out", "are ruled out", "were ruled out",
   "is negative", "was negative", "are negative", "were negative",
   "is absent", "was absent", "are absent", "were absent",
   "is unlikely", "was unlikely", "are unlikely", "were unlikely"]

/-- The `uncertainty_literals` of `_load_default_cues` (FORWARD, scope 5). -/
def uncertaintyLiterals : List String :=
  ["possible", "possibly", "probable", "probably", "likely",
   "may be", "might be", "could be", "suggest", "suggests",
   "suggestive of", "consistent with", "compatible with",
   "suspicious for", "suspect", "suspected", "questionable",
   "unclear", "uncertain", "undetermined", "rule out",
   "consider", "considering", "differential", "appears",
   "seems", "looks like", "impression of"]

/-- The `family_literals` of `_load_default_cues` (FORWARD, scope 8). -/
def familyLiterals : List String :=
  ["family history", "family hx", "fh", "familial", "hereditary",
   "mother", "father", "parent", "parents", "sibling", "sister",
   "brother", "grandmother", "grandfather", "grandparent",
   "grandparents", "aunt", "uncle", "cousin", "maternal",
   "paternal", "runs in family", "family history of"]

/-- The `historical_literals` of `_load_default_cues` (FORWARD, scope 6). -/
def historicalLiterals : List String :=
  ["history of", "hx of", "h/o", "past", "previous", "prior",
   "previously", "former", "old", "remote", "distant",
   "years ago", "months ago", "weeks ago", "days ago",
   "in the past", "historically", "chronic", "longstanding",
   "long-standing", "since", "status post", "s/p"]

/-- The `hypothetical_literals` of `_load_default_cues` (FORWARD, scope 5). -/
def hypotheticalLiterals : List String :=
  ["if", "when", "unless", "should", "would", "could",
   "in case of", "in the event of", "prophylaxis",
   "prophylactic", "preventive", "prevention", "to prevent",
   "avoid", "risk of", "risk for", "predisposed to"]

/-- `NegationAssertionAnnotator._load_default_cues`: the full default cue
list in construction order. -/
def defaultCues : List ContextCue :=
  negationLiterals.map (fun l => mkCue l "negation" .forward 6) ++
  backwardNegationLiterals.map (fun l => mkCue l "negation" .backward 3) ++
  uncertaintyLiterals.map (fun l => mkCue l "uncertainty" .forward 5) ++
  familyLiterals.map (fun l => mkCue l "family_history" .forward 8) ++
  historicalLiterals.map (fun l => mkCue l "historical" .forward 6) ++
  hypotheticalLiterals.map (fun l => mkCue l "hypothetical" .forward 5)

/-- The input text of the spec's concrete assertion scenario. -/
def scenarioText : List Char :=
  chars "Patient denies chest pain. Family history of diabetes in mother."

/-- The scenario's first entity: "chest pain" at `[15,25)`, SIGN_SYMPTOM. -/
def chestPainEntity : NamedEntity :=
  ⟨⟨15, 25⟩, chars "chest pain", .signSymptom, mkRat 85 100⟩

/-- The scenario's second entity: "diabetes" at `[45,53)`, DISORDER. -/
def diabetesEntity : NamedEntity :=
  ⟨⟨45, 53⟩, chars "diabetes", .disorder, mkRat 85 100⟩

/-- C4: on "Patient denies chest pain. Family history of diabetes in
mother." with entities "chest pain" and "diabetes" already present, the
assertion engine with its default cue set classifies "chest pain" as
ABSENT and "diabetes" as FAMILY_HISTORY — neither as PRESENT. -/
theorem scenario_assertions :
    (assertAnnotate scenarioText defaultCues
        [chestPainEntity, diabetesEntity]).map (fun p => p.2) =
      [AssertionType.absent, AssertionType.familyHistory] := by
  decide

theorem categoryAssertion_ne_conditional (c : List Char) :
    categoryAssertion c ≠ some AssertionType.conditional := by
  unfold categoryAssertion
  split_ifs <;> simp

theorem scanApplicableCues_ne_conditional (l : List (ContextCue × Nat)) :
    scanApplicableCues l ≠ AssertionType.conditional := by
  induction l with
  | nil => simp [scanApplicableCues]
  | cons p rest ih =>
    obtain ⟨cue, d⟩ := p
    simp only [scanApplicableCues]
    cases h : categoryAssertion cue.category with
    | none => simpa [h] using ih
    | some a =>
      have hne := categoryAssertion_ne_conditional cue.category
      rw [h] at hne
      simp only [h]
      intro heq
      exact hne (congrArg some heq)

/-- C10: for every entity word-index list and every cue-match list, the
classifier's result is one of PRESENT, ABSENT, POSSIBLE, FAMILY_HISTORY,
HISTORICAL, HYPOTHETICAL; the CONDITIONAL member of the assertion
enumeration is never produced. -/
theorem determineAssertion_never_conditional (entityWordIndices : List Nat)
    (cueMatches : List CueMatch) :
    determineAssertion entityWordIndices cueMatches ∈
      [AssertionType.present, AssertionType.absent, AssertionType.possible,
       AssertionType.familyHistory, AssertionType.historical,
       AssertionType.hypothetical] ∧
    determineAssertion entityWordIndices cueMatches ≠
      AssertionType.conditional := by
  have hne : determineAssertion entityWordIndices cueMatches ≠
      AssertionType.conditional := by
    cases entityWordIndices with
    | nil => simp [determineAssertion]
    | cons i rest =>
      simp only [determineAssertion]
      exact scanApplicableCues_ne_conditional _
  refine ⟨?_, hne⟩
  cases h : determineAssertion entityWordIndices cueMatches <;> simp_all

/-- C8: every entity emitted by the assertion stage carries the same span,
text and entity type as the corresponding input entity, with confidence
equal to the input confidence multiplied by 0.95. -/
theorem assertAnnotate_preserves_entity (text : List Char)
    (cues : List ContextCue) (entities : List NamedEntity) :
    (assertAnnotate text cues entities).map
        (fun p => (p.1.span, p.1.text, p.1.entityType, p.1.confidence)) =
      entities.map
        (fun e => (e.span, e.text, e.entityType, e.confidence * 0.95)) := by
  unfold assertAnnotate
  rw [List.map_map]
  rfl

end PyCTakes

